import Mathlib

/-!
Verification of the setup-mac installation/update orchestration engine.

The definitions below are a shallow embedding of the Go source:
* `Executor.run` embeds `internal/executor.Executor.Run` (the Execution
  Gateway), with wall-clock duration omitted and the OS-level error text of a
  failed `exec.Cmd.Run` abstracted as the string "command failed" (the Go code
  wraps it as `fmt.Errorf("command failed: %w", err)`).
* `determineInstallers` embeds `internal/cli/install.go:determineInstallers`.
* `RunInstaller` / `runLoopAux` embed `installer.RunInstaller` and the
  run loop of `internal/cli/install.go:runInstall` (lines 123-152), with each
  Action abstracted as its name, its `IsInstalled` answer and its `Install`
  outcome on the fixed machine state, and cancellation modelled as the index
  of the first loop iteration at which `ctx.Done()` is observed ready.
* the `...IsInstalled` functions embed the per-installer `IsInstalled`
  methods; `Machine` is the fixed machine state they read (home directory,
  architecture, file existence, executable resolution, process behaviour).
  `filepath.Join` is modelled as separator concatenation.
* `homebrewUpdate` embeds `installer.HomebrewUpdater.Update`; the four
  per-step `if h.ctx.DryRun` branches are collapsed into one leading test
  since the flag is constant across the call.
* `updateZshrcBlock` embeds `installer.ShellInstaller.updateZshrcBlock` over
  `List Char` (the file contents are treated byte-for-byte; `strings.Index`
  becomes `firstIdx`, `strings.HasSuffix(s, "\n")` becomes a last-element
  test, and a missing file is the `none` case of the `content` argument).
-/

/-- Behaviour of the operating system when asked to spawn a process:
either the process fails to start, or it exits with a code and captured
standard output/error. -/
inductive SpawnOutcome where
  | noStart : SpawnOutcome
  | exited : Int → String → String → SpawnOutcome
deriving DecidableEq

/-- `executor.Result` (the ExecutionResult record); the `Duration` field is
omitted from the model (wall-clock time). -/
structure ExecResult where
  command : String
  exitCode : Int
  stdout : String
  stderr : String
  dryRun : Bool
deriving DecidableEq

/-- Everything observable about one call of `Executor.Run`: the returned
result, the returned error, the list of processes actually spawned, and the
notification lines printed. -/
structure RunOut where
  result : ExecResult
  err : Option String
  spawned : List (String × List String)
  notices : List String
deriving DecidableEq

/-- Go `%q` on the characters relevant here: wrap in double quotes, escaping
backslashes and double quotes (escaping of non-printables is out of scope for
the arguments this tool passes). -/
def goQuote (s : String) : String :=
  "\"" ++ String.mk (s.toList.flatMap (fun c =>
    if c = '"' ∨ c = '\\' then ['\\', c] else [c])) ++ "\""

/-- `executor.formatCommand`: quote any argument containing a space or a
double quote, then join with spaces. -/
def formatCommand (name : String) (args : List String) : String :=
  if args = [] then name
  else
    let quoted := args.map (fun a =>
      if a.toList.contains ' ' ∨ a.toList.contains '"' then goQuote a else a)
    name ++ " " ++ String.intercalate " " quoted

/-- `executor.Executor.Run`.  In dry-run mode it emits the preview notice and
returns a synthetic success without spawning; otherwise it spawns the
process, captures output, and reports non-zero exit or start failure as an
error alongside the (still meaningful) result. -/
def Executor.run (dryRun verbose : Bool)
    (spawn : String → List String → SpawnOutcome)
    (name : String) (args : List String) : RunOut :=
  let cmdStr := formatCommand name args
  if dryRun then
    { result := { command := cmdStr, exitCode := 0, stdout := "", stderr := "",
                  dryRun := true },
      err := none, spawned := [], notices := ["[DRY-RUN] " ++ cmdStr] }
  else
    let pre : List String := if verbose then ["[EXEC] " ++ cmdStr] else []
    match spawn name args with
    | SpawnOutcome.noStart =>
      { result := { command := cmdStr, exitCode := -1, stdout := "",
                    stderr := "", dryRun := false },
        err := some "command failed", spawned := [(name, args)], notices := pre }
    | SpawnOutcome.exited code out errS =>
      if code = 0 then
        { result := { command := cmdStr, exitCode := 0, stdout := out,
                      stderr := errS, dryRun := false },
          err := none, spawned := [(name, args)], notices := pre }
      else
        { result := { command := cmdStr, exitCode := code, stdout := out,
                      stderr := errS, dryRun := false },
          err := some "command failed", spawned := [(name, args)], notices := pre }

/-- The fixed machine state read by the install-state checks: home directory
(`os.UserHomeDir`, `none` when it fails), architecture, file existence
(`os.Stat`), executable resolution (`exec.LookPath`), and process behaviour. -/
structure Machine where
  home : Option String
  isArm64 : Bool
  fileExists : String → Bool
  execExists : String → Bool
  spawn : String → List String → SpawnOutcome

def xcodeSelectPath : String := "/usr/bin/xcode-select"

def rosettaPath : String := "/Library/Apple/usr/share/rosetta/rosetta"

def isSpaceChar (c : Char) : Bool :=
  c = ' ' ∨ c = '\t' ∨ c = '\n' ∨ c = '\r'

/-- `strings.TrimSpace` restricted to ASCII whitespace. -/
def trimSpace (s : String) : String :=
  String.mk (((s.toList.dropWhile isSpaceChar).reverse.dropWhile isSpaceChar).reverse)

/-- `HomebrewInstaller.IsInstalled`: `Executor.Exists("brew")`.  The `d`
argument is the context dry-run flag, which this check never reads. -/
def homebrewIsInstalled (_d : Bool) (m : Machine) : Bool :=
  m.execExists "brew"

/-- `OhMyZshInstaller.IsInstalled`: the `~/.oh-my-zsh` directory exists. -/
def ohmyzshIsInstalled (_d : Bool) (m : Machine) : Bool :=
  match m.home with
  | none => false
  | some h => m.fileExists (h ++ "/.oh-my-zsh")

/-- `Powerlevel10kInstaller.IsInstalled`: the theme directory exists. -/
def powerlevel10kIsInstalled (_d : Bool) (m : Machine) : Bool :=
  match m.home with
  | none => false
  | some h => m.fileExists (h ++ "/.oh-my-zsh/custom/themes/powerlevel10k")

/-- `ShellInstaller.IsInstalled`: always false (shell config is always
installable). -/
def shellIsInstalled (_d : Bool) (_m : Machine) : Bool :=
  false

/-- `MacOSInstaller.IsInstalled`: always false (macOS defaults are always
installable). -/
def macosIsInstalled (_d : Bool) (_m : Machine) : Bool :=
  false

/-- `GitInstaller.IsInstalled`: always false (Git config is always
installable). -/
def gitIsInstalled (_d : Bool) (_m : Machine) : Bool :=
  false

/-- `SSHInstaller.expandKeyPath`: expand a leading `~/` using the home
directory. -/
def expandKeyPath (home : Option String) (path : String) : String :=
  if path.startsWith "~/" then
    match home with
    | none => path
    | some h => h ++ "/" ++ path.drop 2
  else path

/-- `SSHInstaller.IsInstalled`: the configured key file exists. -/
def sshIsInstalled (keyFile : String) (_d : Bool) (m : Machine) : Bool :=
  m.fileExists (expandKeyPath m.home keyFile)

/-- `XcodeInstaller.IsInstalled`.  Note the explicit dry-run branch in the
source: "In dry-run mode, assume not installed to show what would happen". -/
def xcodeIsInstalled (d : Bool) (m : Machine) : Bool :=
  if d then false
  else if ¬ m.fileExists xcodeSelectPath then false
  else
    let r := Executor.run d false m.spawn "xcode-select" ["-p"]
    if r.err.isSome then false
    else
      let path := trimSpace r.result.stdout
      if path = "" then false
      else if ¬ m.fileExists path then false
      else true

/-- `RosettaInstaller.IsInstalled`: trivially true off Apple Silicon, else a
file-existence check with a fallback probe through the Execution Gateway
(`arch -x86_64 true`). -/
def rosettaIsInstalled (d : Bool) (m : Machine) : Bool :=
  if ¬ m.isArm64 then true
  else if m.fileExists rosettaPath then true
  else
    let r := Executor.run d false m.spawn "arch" ["-x86_64", "true"]
    if r.err = none ∧ r.result.exitCode = 0 then true else false

/-- The seven components of the install path, in the order the code
constructs them. -/
inductive Component where
  | homebrew | ohmyzsh | powerlevel10k | shell | macos | git | ssh
deriving DecidableEq

/-- The flag set of the `install` command. -/
structure InstallFlags where
  all : Bool
  homebrew : Bool
  terminal : Bool
  shell : Bool
  macos : Bool
  git : Bool
  ssh : Bool

/-- The fixed canonical order of the install path. -/
def canonicalOrder : List Component :=
  [Component.homebrew, Component.ohmyzsh, Component.powerlevel10k,
   Component.shell, Component.macos, Component.git, Component.ssh]

/-- `cli.determineInstallers`: the "all" branch returns the full fixed list;
otherwise each flag appends its component(s) in the fixed order (the
`terminal` flag covers both the shell framework and the theme). -/
def determineInstallers (f : InstallFlags) : List Component :=
  if f.all then
    [Component.homebrew, Component.ohmyzsh, Component.powerlevel10k,
     Component.shell, Component.macos, Component.git, Component.ssh]
  else
    (if f.homebrew then [Component.homebrew] else [])
    ++ (if f.terminal then [Component.ohmyzsh, Component.powerlevel10k] else [])
    ++ (if f.shell then [Component.shell] else [])
    ++ (if f.macos then [Component.macos] else [])
    ++ (if f.git then [Component.git] else [])
    ++ (if f.ssh then [Component.ssh] else [])

/-- Whether a component is selected by a flag set. -/
def selectedComponent (f : InstallFlags) (c : Component) : Bool :=
  f.all ||
    match c with
    | Component.homebrew => f.homebrew
    | Component.ohmyzsh => f.terminal
    | Component.powerlevel10k => f.terminal
    | Component.shell => f.shell
    | Component.macos => f.macos
    | Component.git => f.git
    | Component.ssh => f.ssh

/-- The install-state check of each component of the install path, as a
function of the SSH key-file setting, the dry-run flag and the machine. -/
def isInstalledOf (keyFile : String) : Component → Bool → Machine → Bool
  | Component.homebrew => homebrewIsInstalled
  | Component.ohmyzsh => ohmyzshIsInstalled
  | Component.powerlevel10k => powerlevel10kIsInstalled
  | Component.shell => shellIsInstalled
  | Component.macos => macosIsInstalled
  | Component.git => gitIsInstalled
  | Component.ssh => sshIsInstalled keyFile

/-- A component always reports "not installed", whatever the configuration,
the dry-run flag and the machine state. -/
def alwaysNotInstalled (c : Component) : Prop :=
  ∀ keyFile d m, isInstalledOf keyFile c d m = false

/-- An Action of the install path, abstracted over the fixed machine state:
its name, the answer of its install-state check, and the outcome of its
install effect (`none` = success, `some e` = the error it returns). -/
structure InstallerM where
  name : String
  installed : Bool
  installErr : Option String
deriving DecidableEq

/-- The per-Action state machine of the orchestrator. -/
inductive ActState where
  | pending | succeeded | skipped | failed
deriving DecidableEq

/-- Everything observable about one call of `installer.RunInstaller`: the
terminal state this Action reaches, whether its install effect was invoked,
and the error it returns to the run loop. -/
structure RunInstRes where
  state : ActState
  invoked : Bool
  err : Option String
deriving DecidableEq

/-- `installer.RunInstaller`: already-installed Actions are skipped with an
informational notice (success, install effect not invoked); otherwise the
install effect runs and its outcome decides success or failure. -/
def RunInstaller (inst : InstallerM) : RunInstRes :=
  if inst.installed then
    { state := ActState.skipped, invoked := false, err := none }
  else
    match inst.installErr with
    | none => { state := ActState.succeeded, invoked := true, err := none }
    | some e => { state := ActState.failed, invoked := true, err := some e }

/-- Whether the cancellation signal is observed at loop iteration `idx`,
given that it is raised just before iteration `k` (`cancelAt = some k`) or
never (`none`). -/
def cancelledAt (cancelAt : Option Nat) (idx : Nat) : Bool :=
  match cancelAt with
  | none => false
  | some k => decide (k ≤ idx)

/-- Everything observable about the run loop of `runInstall` (lines
123-133): the state each Action ends in, the names whose install effect was
invoked, the recorded tagged errors, and whether the loop aborted on the
cancellation signal. -/
structure RunOutcome where
  states : List (String × ActState)
  invoked : List String
  errors : List String
  interrupted : Bool
deriving DecidableEq

/-- The run loop of `runInstall`: before each Action, check the signal (if
cancelled, the remaining Actions never leave `pending` and the loop reports
interruption); otherwise run the Action through `RunInstaller`, record a
tagged error on failure, and continue with the next Action. -/
def runLoopAux : Option Nat → Nat → List InstallerM → RunOutcome
  | _, _, [] => { states := [], invoked := [], errors := [], interrupted := false }
  | cancelAt, idx, inst :: rest =>
    if cancelledAt cancelAt idx then
      { states := (inst :: rest).map (fun i => (i.name, ActState.pending)),
        invoked := [], errors := [], interrupted := true }
    else
      let si := RunInstaller inst
      let r := runLoopAux cancelAt (idx + 1) rest
      { states := (inst.name, si.state) :: r.states,
        invoked := (if si.invoked then [inst.name] else []) ++ r.invoked,
        errors := (match si.err with
                   | some e => [inst.name ++ ": " ++ e]
                   | none => []) ++ r.errors,
        interrupted := r.interrupted }

def runLoop (cancelAt : Option Nat) (insts : List InstallerM) : RunOutcome :=
  runLoopAux cancelAt 0 insts

/-- The overall outcome of `runInstall` after the loop (lines 124-152):
interruption reports "installation interrupted"; otherwise a non-empty error
list reports "<n> installer(s) failed"; otherwise success (`none`). -/
def runInstallOutcome (cancelAt : Option Nat) (insts : List InstallerM) :
    Option String :=
  let r := runLoop cancelAt insts
  if r.interrupted then some "installation interrupted"
  else if 0 < r.errors.length then
    some (toString r.errors.length ++ " installer(s) failed")
  else none

/-- `HomebrewUpdater.Update`: requires `brew`; in dry-run every sub-step is
only previewed; otherwise `brew update` and `brew upgrade` failures are fatal
to the call while `brew upgrade --cask` and `brew cleanup` failures are
downgraded to warnings.  Returns the error of the call and the warnings
emitted. -/
def homebrewUpdate (d : Bool) (m : Machine) : Option String × List String :=
  if ¬ m.execExists "brew" then (some "homebrew is not installed", [])
  else if d then (none, [])
  else
    let r1 := Executor.run false false m.spawn "brew" ["update"]
    if r1.err.isSome then
      (some ("brew update failed: " ++ r1.err.getD "" ++ "\n" ++ r1.result.stderr), [])
    else
      let r2 := Executor.run false false m.spawn "brew" ["upgrade"]
      if r2.err.isSome then
        (some ("brew upgrade failed: " ++ r2.err.getD "" ++ "\n" ++ r2.result.stderr), [])
      else
        let r3 := Executor.run false false m.spawn "brew" ["upgrade", "--cask"]
        let w3 : List String :=
          if r3.err.isSome then
            ["Some casks may not have been upgraded: " ++ r3.result.stderr]
          else []
        let r4 := Executor.run false false m.spawn "brew" ["cleanup"]
        let w4 : List String :=
          if r4.err.isSome then ["Cleanup had some issues (non-critical)"]
          else []
        (none, w3 ++ w4)

/-- `pat` is a prefix of `s` (character lists). -/
def startsWith : List Char → List Char → Bool
  | _, [] => true
  | [], _ :: _ => false
  | c :: s, p :: ps => c = p && startsWith s ps

/-- `strings.Index`: index of the first occurrence of `pat` in `s`, `none`
standing for Go's `-1`. -/
def firstIdx : List Char → List Char → Option Nat
  | [], pat => if startsWith [] pat then some 0 else none
  | c :: t, pat =>
    if startsWith (c :: t) pat then some 0
    else (firstIdx t pat).map (fun j => j + 1)

/-- The append path of `updateZshrcBlock`: ensure the content ends with a
newline, then append a blank line, the block and a newline. -/
def appendBlock (content newBlock : List Char) : List Char :=
  let c := if content.getLast? = some '\n' then content else content ++ ['\n']
  c ++ '\n' :: (newBlock ++ ['\n'])

/-- `ShellInstaller.updateZshrcBlock`.  `content` is the current file
contents, `none` when the file does not exist (in which case the file is
created holding the block and a newline).  When both markers occur with the
first end-marker occurrence after the first start-marker occurrence, the span
between them is replaced wholesale by the new block; otherwise the block is
appended. -/
def updateZshrcBlock (content : Option (List Char))
    (startMarker endMarker newBlock : List Char) : List Char :=
  match content with
  | none => newBlock ++ ['\n']
  | some cs =>
    match firstIdx cs startMarker, firstIdx cs endMarker with
    | some s, some e =>
      if s < e then cs.take s ++ newBlock ++ cs.drop (e + endMarker.length)
      else appendBlock cs newBlock
    | some _, none => appendBlock cs newBlock
    | none, _ => appendBlock cs newBlock

theorem RunInstaller_invoked_eq (x : InstallerM) :
    (RunInstaller x).invoked = !x.installed := by
  unfold RunInstaller
  cases hx : x.installed <;> simp <;> cases x.installErr <;> rfl

theorem RunInstaller_err_eq (x : InstallerM) :
    (RunInstaller x).err = if x.installed then none else x.installErr := by
  unfold RunInstaller
  cases hx : x.installed <;> simp <;> cases x.installErr <;> rfl

theorem RunInstaller_state_ne_pending (x : InstallerM) :
    (RunInstaller x).state ≠ ActState.pending := by
  unfold RunInstaller
  cases hx : x.installed <;> simp <;> cases x.installErr <;> simp

/-- Characterization of the run loop when cancellation is never raised: every
Action is attempted in order; the state, invocation and recorded error of
each depend only on that Action's own data. -/
theorem runLoopAux_none (idx : Nat) (insts : List InstallerM) :
    runLoopAux none idx insts =
      { states := insts.map (fun x => (x.name, (RunInstaller x).state)),
        invoked := (insts.filter (fun x => !x.installed)).map (fun x => x.name),
        errors := insts.filterMap
          (fun x => ((RunInstaller x).err).map (fun e => x.name ++ ": " ++ e)),
        interrupted := false } := by
  induction insts generalizing idx with
  | nil => rfl
  | cons i t ih =>
    cases hi : i.installed <;> cases he : i.installErr <;>
      simp [runLoopAux, cancelledAt, ih, RunInstaller, hi, he,
        List.filter_cons, List.filterMap_cons]

theorem runLoop_none (insts : List InstallerM) :
    runLoop none insts =
      { states := insts.map (fun x => (x.name, (RunInstaller x).state)),
        invoked := (insts.filter (fun x => !x.installed)).map (fun x => x.name),
        errors := insts.filterMap
          (fun x => ((RunInstaller x).err).map (fun e => x.name ++ ": " ++ e)),
        interrupted := false } :=
  runLoopAux_none 0 insts

/-- C2: dry-run short-circuit of the Execution Gateway.  For every command
name and argument list, with the dry-run flag active, `Executor.run` returns
an ExecutionResult with `dryRun = true`, exit code 0 and empty captured
output, returns no error, spawns no process, and emits only the preview
notification of the formatted command line. -/
theorem executor_dryRun_short_circuit (v : Bool)
    (spawn : String → List String → SpawnOutcome)
    (name : String) (args : List String) :
    Executor.run true v spawn name args =
      { result := { command := formatCommand name args, exitCode := 0,
                    stdout := "", stderr := "", dryRun := true },
        err := none, spawned := [],
        notices := ["[DRY-RUN] " ++ formatCommand name args] } := rfl

/-- C3: selection is a filter over the fixed canonical order.  For every
combination of the selection flags, `determineInstallers` produces exactly
the canonical order restricted to the selected components. -/
theorem selection_is_filter_of_canonical_order (f : InstallFlags) :
    determineInstallers f = canonicalOrder.filter (selectedComponent f) := by
  obtain ⟨a, h, t, s, m, g, k⟩ := f
  cases a <;> cases h <;> cases t <;> cases s <;> cases m <;> cases g <;>
    cases k <;> rfl

/-- C1: failure isolation of the install run loop.  If the Action at
position `i` fails, its error is recorded tagged with its name, yet every
later Action `j` still reaches the terminal state computed from its own data
alone (so its outcome is independent of the failure), and the run is not
aborted. -/
theorem install_failure_isolation (insts : List InstallerM) (i j : Nat)
    (e : String) (hi : i < insts.length) (hj : j < insts.length) (hij : i < j)
    (hnotinst : insts[i].installed = false)
    (herr : insts[i].installErr = some e) :
    (runLoop none insts).states[j]? =
      some (insts[j].name, (RunInstaller insts[j]).state) ∧
    (RunInstaller insts[j]).state ≠ ActState.pending ∧
    (insts[i].name ++ ": " ++ e) ∈ (runLoop none insts).errors ∧
    (runLoop none insts).interrupted = false := by
  rw [runLoop_none]
  refine ⟨?_, RunInstaller_state_ne_pending _, ?_, rfl⟩
  · simp [List.getElem?_map, hj, List.getElem?_eq_getElem]
  · simp only [List.mem_filterMap]
    refine ⟨insts[i], List.getElem_mem hi, ?_⟩
    rw [RunInstaller_err_eq, hnotinst, herr]
    rfl

theorem install_failure_isolation_w :
    (runLoop none [⟨"a", false, some "boom"⟩, ⟨"b", false, none⟩]).states[1]? =
      some ("b", ActState.succeeded) ∧
    (RunInstaller ⟨"b", false, none⟩).state ≠ ActState.pending ∧
    ("a: boom") ∈
      (runLoop none [⟨"a", false, some "boom"⟩, ⟨"b", false, none⟩]).errors ∧
    (runLoop none [⟨"a", false, some "boom"⟩, ⟨"b", false, none⟩]).interrupted
      = false := by
  have h := install_failure_isolation
    [⟨"a", false, some "boom"⟩, ⟨"b", false, none⟩] 0 1 "boom"
    (by decide) (by decide) (by decide) rfl rfl
  exact h

/-- C4: idempotency skip.  An Action whose install-state check reports
already-installed reaches the `skipped` state with success and without its
install effect being invoked; the run loop still covers every Action, and
only the not-installed Actions have their install effect invoked. -/
theorem already_installed_skip (insts : List InstallerM) (i : Nat)
    (hi : i < insts.length) (hinst : insts[i].installed = true) :
    RunInstaller insts[i] =
      { state := ActState.skipped, invoked := false, err := none } ∧
    (runLoop none insts).invoked =
      (insts.filter (fun x => !x.installed)).map (fun x => x.name) ∧
    (runLoop none insts).states =
      insts.map (fun x => (x.name, (RunInstaller x).state)) := by
  refine ⟨?_, ?_, ?_⟩
  · simp [RunInstaller, hinst]
  · rw [runLoop_none]
  · rw [runLoop_none]

theorem already_installed_skip_w :
    RunInstaller (⟨"a", true, some "x"⟩ : InstallerM) =
      { state := ActState.skipped, invoked := false, err := none } ∧
    (runLoop none [⟨"a", true, some "x"⟩, ⟨"b", false, none⟩]).invoked =
      (([⟨"a", true, some "x"⟩, ⟨"b", false, none⟩] : List InstallerM).filter
        (fun x => !x.installed)).map (fun x => x.name) ∧
    (runLoop none [⟨"a", true, some "x"⟩, ⟨"b", false, none⟩]).states =
      ([⟨"a", true, some "x"⟩, ⟨"b", false, none⟩] : List InstallerM).map
        (fun x => (x.name, (RunInstaller x).state)) := by
  have h := already_installed_skip
    [⟨"a", true, some "x"⟩, ⟨"b", false, none⟩] 0 (by decide) rfl
  exact h

theorem install_errors_length (insts : List InstallerM) :
    (insts.filterMap
      (fun x => ((RunInstaller x).err).map (fun e => x.name ++ ": " ++ e))).length
      = (insts.filter (fun x => !x.installed && x.installErr.isSome)).length := by
  induction insts with
  | nil => rfl
  | cons i t ih =>
    simp only [RunInstaller_err_eq] at ih ⊢
    simp only [List.filterMap_cons, List.filter_cons]
    cases hi : i.installed <;> cases he : i.installErr <;> simp [hi, he, ih]

/-- C5: aggregate outcome.  With no cancellation, the overall run reports
success exactly when no Action's install effect returned an error; otherwise
it reports the number of failed installers; in both cases the state of every
Action was produced. -/
theorem aggregate_outcome (insts : List InstallerM) :
    (runInstallOutcome none insts = none ↔
      ∀ x ∈ insts, ¬(x.installed = false ∧ x.installErr.isSome = true)) ∧
    runInstallOutcome none insts =
      (if 0 < (insts.filter (fun x => !x.installed && x.installErr.isSome)).length
       then some (toString
          (insts.filter (fun x => !x.installed && x.installErr.isSome)).length
          ++ " installer(s) failed")
       else none) ∧
    (runLoop none insts).states =
      insts.map (fun x => (x.name, (RunInstaller x).state)) := by
  have hchar : runInstallOutcome none insts =
      (if 0 < (insts.filter (fun x => !x.installed && x.installErr.isSome)).length
       then some (toString
          (insts.filter (fun x => !x.installed && x.installErr.isSome)).length
          ++ " installer(s) failed")
       else none) := by
    unfold runInstallOutcome
    rw [runLoop_none]
    simp [install_errors_length]
  refine ⟨?_, hchar, (runLoop_none insts).symm ▸ rfl⟩
  rw [hchar]
  constructor
  · intro h x hx hpx
    by_cases hpos :
        0 < (insts.filter (fun y => !y.installed && y.installErr.isSome)).length
    · simp [hpos] at h
    · have : x ∈ insts.filter (fun y => !y.installed && y.installErr.isSome) := by
        simp [List.mem_filter, hx, hpx.1, hpx.2]
      have hne : insts.filter (fun y => !y.installed && y.installErr.isSome) ≠ [] :=
        fun hnil => by simp [hnil] at this
      exact hpos (List.length_pos.mpr hne)
  · intro h
    have hnil : insts.filter (fun y => !y.installed && y.installErr.isSome) = [] := by
      rw [List.filter_eq_nil_iff]
      intro a ha
      have := h a ha
      simp only [Bool.and_eq_true, Bool.not_eq_true'] at *
      intro hcon
      exact this ⟨hcon.1, hcon.2⟩
    simp [hnil]

theorem take_len_append {α : Type} (a b : List α) : (a ++ b).take a.length = a := by
  induction a with
  | nil => rfl
  | cons x t ih => simp [ih]

theorem drop_len_append {α : Type} (a b : List α) : (a ++ b).drop a.length = b := by
  induction a with
  | nil => rfl
  | cons x t ih => simp [ih]

/-- Characterization of the run loop when the cancellation signal is raised
just before loop iteration `idx + k`: the first `k` Actions run normally,
the rest never leave `pending`, and the loop reports interruption. -/
theorem runLoopAux_cancel (k : Nat) :
    ∀ (insts : List InstallerM) (idx : Nat), k < insts.length →
    runLoopAux (some (idx + k)) idx insts =
      { states := (insts.take k).map (fun x => (x.name, (RunInstaller x).state))
                  ++ (insts.drop k).map (fun x => (x.name, ActState.pending)),
        invoked := ((insts.take k).filter (fun x => !x.installed)).map
          (fun x => x.name),
        errors := (insts.take k).filterMap
          (fun x => ((RunInstaller x).err).map (fun e => x.name ++ ": " ++ e)),
        interrupted := true } := by
  induction k with
  | zero =>
    intro insts idx hk
    match insts, hk with
    | i :: t, _ => simp [runLoopAux, cancelledAt]
  | succ k ih =>
    intro insts idx hk
    match insts, hk with
    | i :: t, hk =>
      have hkt : k < t.length := by
        simp only [List.length_cons] at hk
        omega
      have harith : idx + (k + 1) = idx + 1 + k := by omega
      have hcan : cancelledAt (some (idx + 1 + k)) idx = false := by
        simp only [cancelledAt, decide_eq_false_iff_not]
        omega
      simp only [runLoopAux, harith, hcan, Bool.false_eq_true, if_false,
        ih t (idx + 1) hkt]
      cases hi : i.installed <;> cases he : i.installErr <;>
        simp [RunInstaller, hi, he, List.filter_cons, List.filterMap_cons]

/-- C8: cancellation boundary.  If the cancellation signal is raised after
`k` of `n` Actions have completed (`k < n`), exactly the first `k` Actions
reach terminal (non-pending) states computed from their own data, the
remaining `n - k` Actions never leave `pending`, completed results are kept
as they are (no rollback), and the run reports the distinct "installation
interrupted" outcome. -/
theorem cancellation_boundary (insts : List InstallerM) (k : Nat)
    (hk : k < insts.length) :
    (runLoop (some k) insts).states =
      (insts.take k).map (fun x => (x.name, (RunInstaller x).state))
      ++ (insts.drop k).map (fun x => (x.name, ActState.pending)) ∧
    (∀ p ∈ (runLoop (some k) insts).states.take k, p.2 ≠ ActState.pending) ∧
    (∀ p ∈ (runLoop (some k) insts).states.drop k, p.2 = ActState.pending) ∧
    (runLoop (some k) insts).interrupted = true ∧
    runInstallOutcome (some k) insts = some "installation interrupted" := by
  have hmain := runLoopAux_cancel k insts 0 hk
  rw [Nat.zero_add] at hmain
  have hruneq : runLoop (some k) insts = _ := hmain
  have hlen : ((insts.take k).map
      (fun x => (x.name, (RunInstaller x).state))).length = k := by
    simp [List.length_take, Nat.min_eq_left (Nat.le_of_lt hk)]
  have htake : ∀ (A B : List (String × ActState)), A.length = k →
      (A ++ B).take k = A := by
    intro A B hA
    rw [← hA, take_len_append]
  have hdrop : ∀ (A B : List (String × ActState)), A.length = k →
      (A ++ B).drop k = B := by
    intro A B hA
    rw [← hA, drop_len_append]
  refine ⟨?_, ?_, ?_, ?_, ?_⟩
  · rw [hruneq]
  · rw [hruneq]
    have h2 := htake _ ((insts.drop k).map (fun x => (x.name, ActState.pending))) hlen
    simp only [h2]
    intro p hp
    rcases List.mem_map.mp hp with ⟨x, _, hx⟩
    rw [← hx]
    exact RunInstaller_state_ne_pending x
  · rw [hruneq]
    have h3 := hdrop _ ((insts.drop k).map (fun x => (x.name, ActState.pending))) hlen
    simp only [h3]
    intro p hp
    rcases List.mem_map.mp hp with ⟨x, _, hx⟩
    rw [← hx]
  · rw [hruneq]
  · simp [runInstallOutcome, hruneq]

theorem cancellation_boundary_w :
    (runLoop (some 1) [⟨"a", false, none⟩, ⟨"b", false, none⟩]).states =
      (([⟨"a", false, none⟩, ⟨"b", false, none⟩] : List InstallerM).take 1).map
        (fun x => (x.name, (RunInstaller x).state))
      ++ (([⟨"a", false, none⟩, ⟨"b", false, none⟩] : List InstallerM).drop 1).map
        (fun x => (x.name, ActState.pending)) ∧
    (∀ p ∈ (runLoop (some 1) [⟨"a", false, none⟩, ⟨"b", false, none⟩]).states.take 1,
      p.2 ≠ ActState.pending) ∧
    (∀ p ∈ (runLoop (some 1) [⟨"a", false, none⟩, ⟨"b", false, none⟩]).states.drop 1,
      p.2 = ActState.pending) ∧
    (runLoop (some 1) [⟨"a", false, none⟩, ⟨"b", false, none⟩]).interrupted = true ∧
    runInstallOutcome (some 1) [⟨"a", false, none⟩, ⟨"b", false, none⟩] =
      some "installation interrupted" := by
  have h := cancellation_boundary [⟨"a", false, none⟩, ⟨"b", false, none⟩] 1
    (by decide)
  exact h

/-- A machine on which the Xcode Command Line Tools are genuinely installed:
the `xcode-select` binary exists, `xcode-select -p` prints the developer
directory, and that directory exists. -/
def mXcodeOk : Machine :=
  { home := some "/Users/u", isArm64 := true,
    fileExists := fun _ => true, execExists := fun _ => true,
    spawn := fun _ _ => SpawnOutcome.exited 0 "/Library/Developer/CommandLineTools" "" }

/-- An Apple Silicon machine without Rosetta 2 on which the `arch -x86_64`
probe fails. -/
def mRosettaAbsent : Machine :=
  { home := none, isArm64 := true,
    fileExists := fun _ => false, execExists := fun _ => false,
    spawn := fun _ _ => SpawnOutcome.exited 1 "" "" }

/-- C6 counterexample: dry-run does alter install-state checks.  On a
machine where the Xcode check answers `true` without dry-run, it answers
`false` with dry-run (the source deliberately assumes not-installed under
dry-run); and on an Apple Silicon machine without Rosetta the Rosetta check
answers `false` without dry-run but `true` with dry-run, because its
fallback probe goes through the dry-run-suppressed Execution Gateway. -/
theorem dryRun_alters_checks_counterexample :
    xcodeIsInstalled false mXcodeOk = true ∧
    xcodeIsInstalled true mXcodeOk = false ∧
    rosettaIsInstalled false mRosettaAbsent = false ∧
    rosettaIsInstalled true mRosettaAbsent = true := by
  refine ⟨?_, rfl, ?_, ?_⟩ <;> rfl

/-- C6 amended: the install-state checks of the seven install-path Actions
(package manager, shell framework, theme, shell dotfile customization, OS
preferences, version-control configuration, key generation) return the same
answer whether dry-run is active or not; the exceptions are the
developer-tools check, which always reports not-installed under dry-run, and
the Rosetta check, which always reports installed under dry-run. -/
theorem dryRun_noninterference_amended (m : Machine) (keyFile : String) :
    homebrewIsInstalled true m = homebrewIsInstalled false m ∧
    ohmyzshIsInstalled true m = ohmyzshIsInstalled false m ∧
    powerlevel10kIsInstalled true m = powerlevel10kIsInstalled false m ∧
    shellIsInstalled true m = shellIsInstalled false m ∧
    macosIsInstalled true m = macosIsInstalled false m ∧
    gitIsInstalled true m = gitIsInstalled false m ∧
    sshIsInstalled keyFile true m = sshIsInstalled keyFile false m ∧
    xcodeIsInstalled true m = false ∧
    rosettaIsInstalled true m = true := by
  refine ⟨rfl, rfl, rfl, rfl, rfl, rfl, rfl, rfl, ?_⟩
  by_cases h1 : m.isArm64 <;> by_cases h2 : m.fileExists rosettaPath <;>
    simp [rosettaIsInstalled, h1, h2, Executor.run]

/-- A machine on which every component of the install path would report
installed: home directory resolves, every file exists, every executable
resolves. -/
def mAllPresent : Machine :=
  { home := some "/h", isArm64 := true,
    fileExists := fun _ => true, execExists := fun _ => true,
    spawn := fun _ _ => SpawnOutcome.exited 0 "x" "" }

/-- C7 counterexample: it is not the case that exactly one Action of the
fixed install-path set always reports "not installed" — the shell-dotfile
Action and the version-control Action both do. -/
theorem exactly_one_always_not_installed_counterexample :
    ¬ ∃! c : Component, c ∈ canonicalOrder ∧ alwaysNotInstalled c := by
  rintro ⟨c, ⟨hc, hcall⟩, huniq⟩
  have hs : Component.shell = c :=
    huniq Component.shell ⟨by decide, fun _ _ _ => rfl⟩
  have hg : Component.git = c :=
    huniq Component.git ⟨by decide, fun _ _ _ => rfl⟩
  exact absurd (hs.trans hg.symm) (by decide)

/-- C7 amended: exactly three Actions of the fixed install-path set always
report "not installed" regardless of configuration, dry-run flag and machine
state — the shell-dotfile customization, OS-preference, and version-control
configuration Actions; every other Action reports installed on some machine
state. -/
theorem exactly_three_always_not_installed (c : Component)
    (hc : c ∈ canonicalOrder) :
    alwaysNotInstalled c ↔
      (c = Component.shell ∨ c = Component.macos ∨ c = Component.git) := by
  cases c
  case shell => exact ⟨fun _ => Or.inl rfl, fun _ => fun _ _ _ => rfl⟩
  case macos => exact ⟨fun _ => Or.inr (Or.inl rfl), fun _ => fun _ _ _ => rfl⟩
  case git => exact ⟨fun _ => Or.inr (Or.inr rfl), fun _ => fun _ _ _ => rfl⟩
  case homebrew =>
    constructor
    · intro h
      exact absurd (h "k" false mAllPresent) (by decide)
    · rintro (h | h | h) <;> exact absurd h (by decide)
  case ohmyzsh =>
    constructor
    · intro h
      exact absurd (h "k" false mAllPresent) (by decide)
    · rintro (h | h | h) <;> exact absurd h (by decide)
  case powerlevel10k =>
    constructor
    · intro h
      exact absurd (h "k" false mAllPresent) (by decide)
    · rintro (h | h | h) <;> exact absurd h (by decide)
  case ssh =>
    constructor
    · intro h
      exact absurd (h "k" false mAllPresent) (by decide)
    · rintro (h | h | h) <;> exact absurd h (by decide)

theorem exactly_three_always_not_installed_w :
    alwaysNotInstalled Component.shell ↔
      (Component.shell = Component.shell ∨ Component.shell = Component.macos ∨
        Component.shell = Component.git) :=
  exactly_three_always_not_installed Component.shell (by decide)

/-- C9: best-effort sub-step downgrade in the Homebrew update.  When `brew`
is present and dry-run is off: a failing `brew update` or `brew upgrade`
makes the whole update call return an error, while once both succeed the
call returns success regardless of the cask-upgrade and cleanup outcomes,
whose failures are reported only as warnings. -/
theorem homebrew_update_downgrade (m : Machine)
    (hb : m.execExists "brew" = true) :
    ((Executor.run false false m.spawn "brew" ["update"]).err.isSome = true →
      (homebrewUpdate false m).1 =
        some ("brew update failed: "
          ++ (Executor.run false false m.spawn "brew" ["update"]).err.getD ""
          ++ "\n"
          ++ (Executor.run false false m.spawn "brew" ["update"]).result.stderr)) ∧
    ((Executor.run false false m.spawn "brew" ["update"]).err = none →
      (Executor.run false false m.spawn "brew" ["upgrade"]).err.isSome = true →
      (homebrewUpdate false m).1 =
        some ("brew upgrade failed: "
          ++ (Executor.run false false m.spawn "brew" ["upgrade"]).err.getD ""
          ++ "\n"
          ++ (Executor.run false false m.spawn "brew" ["upgrade"]).result.stderr)) ∧
    ((Executor.run false false m.spawn "brew" ["update"]).err = none →
      (Executor.run false false m.spawn "brew" ["upgrade"]).err = none →
      (homebrewUpdate false m).1 = none ∧
      (homebrewUpdate false m).2 =
        (if (Executor.run false false m.spawn "brew" ["upgrade", "--cask"]).err.isSome
         then ["Some casks may not have been upgraded: "
           ++ (Executor.run false false m.spawn "brew" ["upgrade", "--cask"]).result.stderr]
         else [])
        ++ (if (Executor.run false false m.spawn "brew" ["cleanup"]).err.isSome
            then ["Cleanup had some issues (non-critical)"]
            else [])) := by
  refine ⟨?_, ?_, ?_⟩
  · intro h1
    simp [homebrewUpdate, hb, h1]
  · intro h1 h2
    simp [homebrewUpdate, hb, h1, h2]
  · intro h1 h2
    simp [homebrewUpdate, hb, h1, h2]

/-- A machine where every brew invocation succeeds except `brew upgrade
--cask`, which fails. -/
def mCaskFails : Machine :=
  { home := none, isArm64 := false,
    fileExists := fun _ => false, execExists := fun _ => true,
    spawn := fun _ args =>
      if args.contains "--cask" then SpawnOutcome.exited 1 "" "cask locked"
      else SpawnOutcome.exited 0 "" "" }

/-- A machine where `brew update` itself fails. -/
def mBrewUpdateFails : Machine :=
  { home := none, isArm64 := false,
    fileExists := fun _ => false, execExists := fun _ => true,
    spawn := fun _ _ => SpawnOutcome.exited 1 "" "boom" }

theorem homebrew_update_downgrade_w :
    (homebrewUpdate false mCaskFails).1 = none ∧
    (homebrewUpdate false mCaskFails).2 =
      ["Some casks may not have been upgraded: cask locked"] ∧
    (homebrewUpdate false mBrewUpdateFails).1.isSome = true := by
  have hok := (homebrew_update_downgrade mCaskFails rfl).2.2 rfl rfl
  have hfail := (homebrew_update_downgrade mBrewUpdateFails rfl).1 (by decide)
  refine ⟨hok.1, ?_, ?_⟩
  · rw [hok.2]
    decide
  · rw [hfail]
    rfl

theorem startsWith_nil_iff (pat : List Char) :
    startsWith [] pat = true ↔ pat = [] := by
  cases pat <;> simp [startsWith]

theorem startsWith_length {s pat : List Char} (h : startsWith s pat = true) :
    pat.length ≤ s.length := by
  induction s generalizing pat with
  | nil =>
    rw [startsWith_nil_iff] at h
    simp [h]
  | cons c t ih =>
    cases pat with
    | nil => simp
    | cons p ps =>
      simp only [startsWith, Bool.and_eq_true, decide_eq_true_eq] at h
      have := ih h.2
      simp only [List.length_cons]
      omega

theorem startsWith_append_of_startsWith {s pat : List Char} (ys : List Char)
    (h : startsWith s pat = true) : startsWith (s ++ ys) pat = true := by
  induction s generalizing pat with
  | nil =>
    rw [startsWith_nil_iff] at h
    subst h
    cases ys <;> rfl
  | cons c t ih =>
    cases pat with
    | nil => rfl
    | cons p ps =>
      simp only [startsWith, Bool.and_eq_true, decide_eq_true_eq] at h
      simp only [List.cons_append, startsWith, Bool.and_eq_true,
        decide_eq_true_eq]
      exact ⟨h.1, ih h.2⟩

theorem startsWith_of_append {xs ys pat : List Char}
    (h : startsWith (xs ++ ys) pat = true) (hlen : pat.length ≤ xs.length) :
    startsWith xs pat = true := by
  induction xs generalizing pat with
  | nil =>
    simp only [List.length_nil, Nat.le_zero, List.length_eq_zero] at hlen
    subst hlen
    rfl
  | cons x t ih =>
    cases pat with
    | nil => rfl
    | cons p ps =>
      simp only [List.cons_append, startsWith, Bool.and_eq_true,
        decide_eq_true_eq] at h
      simp only [List.length_cons] at hlen
      simp only [startsWith, Bool.and_eq_true, decide_eq_true_eq]
      exact ⟨h.1, ih h.2 (by omega)⟩

theorem startsWith_append_cons {xs ys pat : List Char} {c : Char}
    (h : startsWith (xs ++ c :: ys) pat = true) (hc : c ∉ pat) :
    startsWith xs pat = true := by
  induction xs generalizing pat with
  | nil =>
    cases pat with
    | nil => rfl
    | cons p ps =>
      simp only [List.nil_append, startsWith, Bool.and_eq_true,
        decide_eq_true_eq] at h
      exact absurd (h.1 ▸ List.mem_cons_self p ps) hc
  | cons x t ih =>
    cases pat with
    | nil => rfl
    | cons p ps =>
      simp only [List.cons_append, startsWith, Bool.and_eq_true,
        decide_eq_true_eq] at h
      have hc' : c ∉ ps := fun hmem => hc (List.mem_cons_of_mem _ hmem)
      simp only [startsWith, Bool.and_eq_true, decide_eq_true_eq]
      exact ⟨h.1, ih h.2 hc'⟩

theorem firstIdx_nil {pat : List Char} (h : pat ≠ []) :
    firstIdx [] pat = none := by
  cases pat with
  | nil => exact absurd rfl h
  | cons p ps => rfl

theorem firstIdx_of_empty_pat (s : List Char) : firstIdx s [] = some 0 := by
  cases s <;> rfl

theorem firstIdx_le_length {s pat : List Char} {j : Nat}
    (h : firstIdx s pat = some j) : j + pat.length ≤ s.length := by
  induction s generalizing j with
  | nil =>
    cases pat with
    | nil =>
      have hj : j = 0 := by
        simp [firstIdx, startsWith] at h
        omega
      simp [hj]
    | cons p ps => simp [firstIdx_nil] at h
  | cons c t ih =>
    by_cases hsw : startsWith (c :: t) pat = true
    · have h0 : firstIdx (c :: t) pat = some 0 := by simp [firstIdx, hsw]
      rw [h0] at h
      have hj : j = 0 := by simpa using h.symm
      subst hj
      simpa using startsWith_length hsw
    · have hrec : firstIdx (c :: t) pat =
          (firstIdx t pat).map (fun j => j + 1) := by
        simp [firstIdx, hsw]
      rw [hrec] at h
      cases hft : firstIdx t pat with
      | none => simp [hft] at h
      | some j' =>
        rw [hft] at h
        simp only [Option.map_some', Option.some.injEq] at h
        have := ih hft
        simp only [List.length_cons]
        omega

theorem firstIdx_append_of_some {xs ys pat : List Char} {j : Nat}
    (h : firstIdx xs pat = some j) : firstIdx (xs ++ ys) pat = some j := by
  induction xs generalizing j with
  | nil =>
    cases pat with
    | nil =>
      have hj : j = 0 := by
        simp [firstIdx, startsWith] at h
        omega
      subst hj
      simpa using firstIdx_of_empty_pat ys
    | cons p ps => simp [firstIdx_nil] at h
  | cons x t ih =>
    by_cases hsw : startsWith (x :: t) pat = true
    · have h0 : firstIdx (x :: t) pat = some 0 := by simp [firstIdx, hsw]
      rw [h0] at h
      have hj : j = 0 := by simpa using h.symm
      subst hj
      have hsw2 : startsWith ((x :: t) ++ ys) pat = true :=
        startsWith_append_of_startsWith ys hsw
      simp only [List.cons_append] at hsw2 ⊢
      simp [firstIdx, hsw2]
    · have hrec : firstIdx (x :: t) pat =
          (firstIdx t pat).map (fun j => j + 1) := by
        simp [firstIdx, hsw]
      rw [hrec] at h
      cases hft : firstIdx t pat with
      | none => simp [hft] at h
      | some j' =>
        rw [hft] at h
        simp only [Option.map_some', Option.some.injEq] at h
        have hlen : pat.length ≤ t.length := by
          have := firstIdx_le_length hft
          omega
        have hsw2 : ¬ startsWith ((x :: t) ++ ys) pat = true := fun hT =>
          hsw (startsWith_of_append hT (by simp; omega))
        simp only [List.cons_append] at hsw2
        have hys := ih hft
        simp [firstIdx, hsw2, hys, ← h]

theorem firstIdx_append_cons_of_none {xs ys pat : List Char} {c : Char}
    (hpat : pat ≠ []) (hc : c ∉ pat) (hxs : firstIdx xs pat = none) :
    firstIdx (xs ++ c :: ys) pat =
      (firstIdx ys pat).map (fun j => xs.length + 1 + j) := by
  induction xs with
  | nil =>
    have hsw : ¬ startsWith (c :: ys) pat = true := by
      intro h
      cases pat with
      | nil => exact hpat rfl
      | cons p ps =>
        simp only [startsWith, Bool.and_eq_true, decide_eq_true_eq] at h
        exact hc (h.1 ▸ List.mem_cons_self p ps)
    simp only [List.nil_append, firstIdx, hsw, if_false, List.length_nil]
    cases h : firstIdx ys pat <;> simp [h, Nat.add_comm]
  | cons x t ih =>
    have hparts : ¬ startsWith (x :: t) pat = true ∧ firstIdx t pat = none := by
      by_cases hsw : startsWith (x :: t) pat = true
      · simp [firstIdx, hsw] at hxs
      · refine ⟨hsw, ?_⟩
        have := hxs
        simp only [firstIdx, hsw, if_false] at this
        exact Option.map_eq_none'.mp this
    have hswT : ¬ startsWith ((x :: t) ++ c :: ys) pat = true := fun hT =>
      hparts.1 (startsWith_append_cons hT hc)
    simp only [List.cons_append] at hswT
    have hih := ih hparts.2
    cases h : firstIdx ys pat
    · simp [firstIdx, hswT, hih, h]
    · simp [firstIdx, hswT, hih, h]
      omega

/-- C10 amended: the block update is idempotent on contents that do not
already contain either marker, for markers that are nonempty and
newline-free and a block that begins with the start marker and contains the
end marker only as its terminal suffix, the end marker being strictly
shorter than the block (otherwise the appended block's first end-marker
occurrence does not lie strictly after its first start-marker occurrence and
the second application appends again). -/
theorem updateZshrcBlock_idempotent
    (cs SM EM B : List Char)
    (hSM : SM ≠ []) (hEM : EM ≠ [])
    (hSMn : '\n' ∉ SM) (hEMn : '\n' ∉ EM)
    (hcsS : firstIdx cs SM = none) (hcsE : firstIdx cs EM = none)
    (hB0 : startsWith B SM = true)
    (hBe : firstIdx B EM = some (B.length - EM.length))
    (hlen : EM.length < B.length) :
    updateZshrcBlock (some (updateZshrcBlock (some cs) SM EM B)) SM EM B =
      updateZshrcBlock (some cs) SM EM B := by
  have h1 : updateZshrcBlock (some cs) SM EM B = appendBlock cs B := by
    simp [updateZshrcBlock, hcsS]
  have happ : appendBlock cs B =
      (if cs.getLast? = some '\n' then cs else cs ++ ['\n'])
      ++ '\n' :: (B ++ ['\n']) := rfl
  set cs' := if cs.getLast? = some '\n' then cs else cs ++ ['\n'] with hcsdef
  have hcs'S : firstIdx cs' SM = none := by
    rw [hcsdef]
    split
    · exact hcsS
    · rw [firstIdx_append_cons_of_none hSM hSMn hcsS, firstIdx_nil hSM]
      rfl
  have hcs'E : firstIdx cs' EM = none := by
    rw [hcsdef]
    split
    · exact hcsE
    · rw [firstIdx_append_cons_of_none hEM hEMn hcsE, firstIdx_nil hEM]
      rfl
  have hBfirst : firstIdx B SM = some 0 := by
    cases B with
    | nil =>
      have := startsWith_length hB0
      simp only [List.length_nil, Nat.le_zero, List.length_eq_zero] at this
      exact absurd this hSM
    | cons b bt => simp [firstIdx, hB0]
  have hS1 : firstIdx (B ++ ['\n']) SM = some 0 := firstIdx_append_of_some hBfirst
  have hE1 : firstIdx (B ++ ['\n']) EM = some (B.length - EM.length) :=
    firstIdx_append_of_some hBe
  have hSfull : firstIdx (cs' ++ '\n' :: (B ++ ['\n'])) SM =
      some (cs'.length + 1) := by
    rw [firstIdx_append_cons_of_none hSM hSMn hcs'S, hS1]
    rfl
  have hEfull : firstIdx (cs' ++ '\n' :: (B ++ ['\n'])) EM =
      some (cs'.length + 1 + (B.length - EM.length)) := by
    rw [firstIdx_append_cons_of_none hEM hEMn hcs'E, hE1]
    rfl
  rw [h1, happ]
  have hlt : cs'.length + 1 < cs'.length + 1 + (B.length - EM.length) := by
    omega
  have harith : cs'.length + 1 + (B.length - EM.length) + EM.length =
      cs'.length + 1 + B.length := by omega
  have htake : (cs' ++ '\n' :: (B ++ ['\n'])).take (cs'.length + 1) =
      cs' ++ ['\n'] := by
    have heq : cs' ++ '\n' :: (B ++ ['\n']) =
        (cs' ++ ['\n']) ++ (B ++ ['\n']) := by simp
    have hl : cs'.length + 1 = (cs' ++ ['\n']).length := by simp
    rw [heq, hl, take_len_append]
  have hdrop : (cs' ++ '\n' :: (B ++ ['\n'])).drop (cs'.length + 1 + B.length) =
      ['\n'] := by
    have heq : cs' ++ '\n' :: (B ++ ['\n']) =
        ((cs' ++ ['\n']) ++ B) ++ ['\n'] := by simp
    have hl : cs'.length + 1 + B.length = ((cs' ++ ['\n']) ++ B).length := by
      simp only [List.length_append, List.length_cons, List.length_nil]
    rw [heq, hl, drop_len_append]
  simp only [updateZshrcBlock, hSfull, hEfull, hlt, if_true]
  rw [harith, htake, hdrop]
  simp

/-- C10 counterexample: with start marker `S`, end marker `E` and block
`SxE` (which begins with the start marker and ends with the end marker),
applying the update twice to the initial content `yE` — which contains the
end marker but no start marker — does not equal applying it once. -/
theorem updateZshrcBlock_not_idempotent_counterexample :
    startsWith ['S', 'x', 'E'] ['S'] = true ∧
    startsWith (List.reverse ['S', 'x', 'E']) (List.reverse ['E']) = true ∧
    updateZshrcBlock
        (some (updateZshrcBlock (some ['y', 'E']) ['S'] ['E'] ['S', 'x', 'E']))
        ['S'] ['E'] ['S', 'x', 'E'] ≠
      updateZshrcBlock (some ['y', 'E']) ['S'] ['E'] ['S', 'x', 'E'] := by
  decide

theorem updateZshrcBlock_idempotent_w :
    updateZshrcBlock
        (some (updateZshrcBlock (some ['h', 'i']) ['A'] ['Z'] ['A', 'x', 'Z']))
        ['A'] ['Z'] ['A', 'x', 'Z'] =
      updateZshrcBlock (some ['h', 'i']) ['A'] ['Z'] ['A', 'x', 'Z'] :=
  updateZshrcBlock_idempotent ['h', 'i'] ['A'] ['Z'] ['A', 'x', 'Z']
    (by decide) (by decide) (by decide) (by decide) (by decide) (by decide)
    (by decide) (by decide) (by decide)
